import Mathlib

/-!
Shallow embedding of the calendar availability engine implemented in
src/models/calendar_manager.py, together with proofs about the claims of
the natural-language specification.

Timestamps are modelled as integer seconds in the configured local zone,
with second 0 falling on a Monday at local midnight.  Under this model the
Python accessors become integer arithmetic: date() is floor division by
86400, hour is floor division by 3600 modulo 24, and weekday() is the date
index modulo 7 with Monday = 0, exactly as in Python.  String rendering of
timestamps (strftime) is outside the model; a formatted slot list is
identified with its list of slots.
-/

namespace CalendarManager

/-- One of the {"start": dt, "end": dt} dictionaries used throughout
calendar_manager.py (TimeSlot, BusyInterval and AvailabilityWindow in the
spec).  The field `stop` embeds the dictionary key "end", which is a
reserved word in Lean. -/
structure Slot where
  start : Int
  stop : Int
deriving DecidableEq, Repr

/-- Python date() as a day index: floor division of seconds by 86400. -/
def dateOf (t : Int) : Int := t / 86400

/-- Python hour field of a timestamp. -/
def hourOf (t : Int) : Int := t / 3600 % 24

/-- Python minute field of a timestamp. -/
def minuteOf (t : Int) : Int := t / 60 % 60

/-- Python second field of a timestamp. -/
def secondOf (t : Int) : Int := t % 60

/-- Python weekday(): Monday = 0 through Sunday = 6 (second 0 of the model
is a Monday midnight). -/
def weekday (t : Int) : Int := dateOf t % 7

/-- Python t.replace with the given hour and with minute, second and
microsecond zeroed, as used at lines 87, 89, 140, 141, 180, 197, 198, 250
and 252 of calendar_manager.py. -/
def replaceHour (t h : Int) : Int := dateOf t * 86400 + h * 3600

/-- Value of self.start_hour set in CalendarManager.__init__ (line 23). -/
def start_hour : Int := 9

/-- Value of self.end_hour set in CalendarManager.__init__ (line 24). -/
def end_hour : Int := 18

/-- CalendarManager._check_valid_date_and_hour_range (lines 83-91): clamp a
timestamp into business hours.  The Lean name drops the leading underscore
of the Python name. -/
def check_valid_date_and_hour_range (t : Int) : Int :=
  if hourOf t < start_hour then replaceHour t start_hour
  else if hourOf t > end_hour then replaceHour t end_hour
  else t

/-- Buffer expansion of _compute_free_slots (lines 39-42): every busy slot
is widened by buffer_minutes minutes on both ends. -/
def bufferedBusy (buffer_minutes : Int) (busy_slots : List Slot) : List Slot :=
  busy_slots.map (fun s => ⟨s.start - buffer_minutes * 60, s.stop + buffer_minutes * 60⟩)

/-- Per-day busy selection of _compute_free_slots (lines 48-56): keep the
buffered slots whose start date equals the date of the window start, clip
each to the window, and sort by start.  Python list.sort with a key is a
stable sort; it is embedded as a stable insertion sort on the same key,
which agrees with it on every input. -/
def busy_for_day (day : Slot) (new_busy_slots : List Slot) : List Slot :=
  List.insertionSort (fun a b => a.start ≤ b.start)
    ((new_busy_slots.filter (fun s => decide (dateOf s.start = dateOf day.start))).map
      (fun s => ⟨max s.start day.start, min s.stop day.stop⟩))

instance : IsTotal Slot (fun a b => a.start ≤ b.start) := ⟨fun a b => le_total a.start b.start⟩

instance : IsTrans Slot (fun a b => a.start ≤ b.start) := ⟨fun _ _ _ => le_trans⟩

/-- Sweep loop of _compute_free_slots (lines 58-62): current is the cursor;
the result is the list of emitted free slots together with the final cursor
value. -/
def sweepFree (current : Int) : List Slot → List Slot × Int
  | [] => ([], current)
  | s :: rest =>
    let next := sweepFree (max current s.stop) rest
    if current < s.start then (⟨current, s.start⟩ :: next.1, next.2) else next

/-- Free slots emitted for one availability window by _compute_free_slots
(lines 45-65): sweep the sorted per-day busy list from the window start and
append the trailing slot when the cursor stops before the window end. -/
def freeSlotsForDay (day : Slot) (new_busy_slots : List Slot) : List Slot :=
  let swept := sweepFree day.start (busy_for_day day new_busy_slots)
  swept.1 ++ (if swept.2 < day.stop then [⟨swept.2, day.stop⟩] else [])

/-- CalendarManager._compute_free_slots (lines 38-67). -/
def compute_free_slots (available_days busy_slots : List Slot) (buffer_minutes : Int) :
    List Slot :=
  let new_busy_slots := bufferedBusy buffer_minutes busy_slots
  available_days.flatMap (fun day => freeSlotsForDay day new_busy_slots)

/-- Post-filtering of _list_available_events (lines 153-159): when more than
two slots survive, drop the ones shorter than one hour; then drop the slots
whose start falls on a weekend. -/
def postFilter (slots : List Slot) : List Slot :=
  let filtered := if slots.length > 2 then
    slots.filter (fun s => decide (s.stop - s.start ≥ 3600)) else slots
  filtered.filter (fun s => decide (weekday s.start < 5))

/-- Membership of a timestamp in a slot, reading a slot as the half-open
interval from start (inclusive) to stop (exclusive). -/
def inSlot (x : Int) (s : Slot) : Prop := s.start ≤ x ∧ x < s.stop

instance (x : Int) (s : Slot) : Decidable (inSlot x s) := by
  unfold inSlot
  infer_instance

/-- A timestamp is covered by a list of slots when some slot contains it. -/
def covers (l : List Slot) (x : Int) : Prop := ∃ s ∈ l, inSlot x s

end CalendarManager

namespace CalendarManager

/-- Claim C3, counterexample: a timestamp at 18:30 has hour exactly
end_hour, the boundary test at line 88 is strict, so
_check_valid_date_and_hour_range leaves 18:30 unchanged rather than
snapping it to 18:00:00 as the claim asserts (66600 is 18:30, 64800 is
18:00:00 on the same day). -/
theorem C3_counterexample :
    hourOf 66600 = 18 ∧ minuteOf 66600 = 30 ∧ end_hour = 18 ∧
    check_valid_date_and_hour_range 66600 = 66600 ∧
    check_valid_date_and_hour_range 66600 ≠ 64800 := by decide

/-- Claim C3, amended: clamping returns the timestamp with hour start_hour
and minutes and seconds zeroed when hour is below start_hour, returns it
with hour end_hour and minutes and seconds zeroed when hour is strictly
above end_hour, and returns it unchanged otherwise; in particular 08:00
clamps to 09:00:00 and a timestamp at exactly 18:00, and likewise one at
18:30 whose hour equals end_hour, is not clamped. -/
theorem C3_amended_clamp (t : Int) :
    (hourOf t < start_hour →
      check_valid_date_and_hour_range t = replaceHour t start_hour ∧
      dateOf (check_valid_date_and_hour_range t) = dateOf t ∧
      hourOf (check_valid_date_and_hour_range t) = start_hour ∧
      minuteOf (check_valid_date_and_hour_range t) = 0 ∧
      secondOf (check_valid_date_and_hour_range t) = 0) ∧
    (hourOf t > end_hour →
      check_valid_date_and_hour_range t = replaceHour t end_hour ∧
      dateOf (check_valid_date_and_hour_range t) = dateOf t ∧
      hourOf (check_valid_date_and_hour_range t) = end_hour ∧
      minuteOf (check_valid_date_and_hour_range t) = 0 ∧
      secondOf (check_valid_date_and_hour_range t) = 0) ∧
    (start_hour ≤ hourOf t → hourOf t ≤ end_hour →
      check_valid_date_and_hour_range t = t) := by
  unfold check_valid_date_and_hour_range replaceHour dateOf hourOf minuteOf
    secondOf start_hour end_hour
  split_ifs with h1 h2 <;>
    refine ⟨fun ha => ⟨?_, ?_, ?_, ?_, ?_⟩, fun hb => ⟨?_, ?_, ?_, ?_, ?_⟩,
      fun hc hd => ?_⟩ <;> omega

/-- Claim C3, witness: 08:00 clamps to 09:00:00, 19:05 clamps to 18:00:00,
and 18:00 exactly is left unchanged. -/
theorem C3_amended_clamp_witness :
    check_valid_date_and_hour_range 28800 = replaceHour 28800 start_hour ∧
    check_valid_date_and_hour_range 68700 = replaceHour 68700 end_hour ∧
    check_valid_date_and_hour_range 64800 = 64800 :=
  ⟨((C3_amended_clamp 28800).1 (by decide)).1,
   ((C3_amended_clamp 68700).2.1 (by decide)).1,
   (C3_amended_clamp 64800).2.2 (by decide) (by decide)⟩

/-- Claim C4: the caller post-filter drops slots shorter than one hour only
when more than two slots are present, applies no duration filtering with
two or fewer slots, and then drops every slot starting on a weekend; with
three slots of two hours, half an hour and three hours only the two long
ones survive, and two half-hour slots are both retained. -/
theorem C4_post_filters :
    (∀ l : List Slot, 2 < l.length →
      postFilter l = (l.filter (fun s => decide (s.stop - s.start ≥ 3600))).filter
        (fun s => decide (weekday s.start < 5))) ∧
    (∀ l : List Slot, l.length ≤ 2 →
      postFilter l = l.filter (fun s => decide (weekday s.start < 5))) ∧
    (∀ l : List Slot, ∀ s ∈ postFilter l, weekday s.start < 5) ∧
    postFilter [⟨32400, 39600⟩, ⟨41400, 43200⟩, ⟨45000, 55800⟩] =
      [⟨32400, 39600⟩, ⟨45000, 55800⟩] ∧
    postFilter [⟨32400, 34200⟩, ⟨36000, 37800⟩] =
      [⟨32400, 34200⟩, ⟨36000, 37800⟩] := by
  refine ⟨fun l hl => ?_, fun l hl => ?_, fun l s hs => ?_, by decide, by decide⟩
  · unfold postFilter
    rw [if_pos (by omega)]
  · unfold postFilter
    rw [if_neg (by omega)]
  · unfold postFilter at hs
    have := List.of_mem_filter hs
    simpa using this

/-- Claim C4, witness: the two list-shape rules applied to the two concrete
example inputs of the claim. -/
theorem C4_post_filters_witness :
    postFilter [⟨32400, 39600⟩, ⟨41400, 43200⟩, ⟨45000, 55800⟩] =
      ([⟨32400, 39600⟩, ⟨41400, 43200⟩, ⟨45000, 55800⟩].filter
        (fun s => decide (s.stop - s.start ≥ 3600))).filter
        (fun s => decide (weekday s.start < 5)) ∧
    postFilter [⟨32400, 34200⟩, ⟨36000, 37800⟩] =
      [(⟨32400, 34200⟩ : Slot), ⟨36000, 37800⟩].filter
        (fun s => decide (weekday s.start < 5)) :=
  ⟨C4_post_filters.1 _ (by decide), C4_post_filters.2.1 _ (by decide)⟩

/-- Claim C10: a busy interval whose buffered start falls on a calendar
date different from the date of the window start is filtered out at line 54
and contributes nothing: the free slots computed with it equal the free
slots computed without it, even when the interval itself overlaps the
window. -/
theorem C10_cross_date_busy_ignored (w b : Slot) (l1 l2 : List Slot)
    (h : dateOf (b.start - 30 * 60) ≠ dateOf w.start) :
    compute_free_slots [w] (l1 ++ b :: l2) 30 = compute_free_slots [w] (l1 ++ l2) 30 := by
  have h' : dateOf (b.start - 1800) ≠ dateOf w.start := by simpa using h
  unfold compute_free_slots bufferedBusy
  simp only [List.flatMap_cons, List.flatMap_nil, List.append_nil,
    List.map_append, List.map_cons]
  unfold freeSlotsForDay busy_for_day
  simp [List.filter_append, h']

/-- Claim C10, witness: an event crossing from Monday into the Tuesday
window (00:15 to 10:00 on Tuesday, buffered start on Monday) overlaps the
Tuesday business window yet leaves its free slots unchanged. -/
theorem C10_cross_date_busy_ignored_witness :
    dateOf ((87300 : Int) - 30 * 60) ≠ dateOf 118800 ∧
    (87300 : Int) < 151200 ∧ (118800 : Int) < 122400 ∧
    compute_free_slots [⟨118800, 151200⟩] [⟨87300, 122400⟩] 30 =
      compute_free_slots [⟨118800, 151200⟩] [] 30 :=
  ⟨by decide, by decide, by decide,
   C10_cross_date_busy_ignored ⟨118800, 151200⟩ ⟨87300, 122400⟩ [] [] (by decide)⟩

end CalendarManager

namespace CalendarManager

/-- The sweep cursor never moves backwards. -/
theorem sweepFree_le_fin (bs : List Slot) (current : Int) :
    current ≤ (sweepFree current bs).2 := by
  induction bs generalizing current with
  | nil => exact le_refl _
  | cons b rest ih =>
    have h := ih (max current b.stop)
    by_cases hc : current < b.start
    · simp only [sweepFree, if_pos hc]
      exact le_trans (le_max_left _ _) h
    · simp only [sweepFree, if_neg hc]
      exact le_trans (le_max_left _ _) h

/-- The final cursor stays below any bound dominating the initial cursor
and every busy stop. -/
theorem sweepFree_fin_le (bs : List Slot) (current M : Int) (hc : current ≤ M)
    (hb : ∀ b ∈ bs, b.stop ≤ M) : (sweepFree current bs).2 ≤ M := by
  induction bs generalizing current with
  | nil => exact hc
  | cons b rest ih =>
    have hmax : max current b.stop ≤ M := max_le hc (hb b (List.mem_cons_self _ _))
    have h := ih (max current b.stop) hmax (fun x hx => hb x (List.mem_cons_of_mem _ hx))
    by_cases hcs : current < b.start
    · simp only [sweepFree, if_pos hcs]; exact h
    · simp only [sweepFree, if_neg hcs]; exact h

/-- Every emitted free slot starts at or after the initial cursor. -/
theorem sweepFree_start_ge (bs : List Slot) (current : Int) :
    ∀ s ∈ (sweepFree current bs).1, current ≤ s.start := by
  induction bs generalizing current with
  | nil => intro s hs; simp [sweepFree] at hs
  | cons b rest ih =>
    intro s hs
    by_cases hc : current < b.start
    · simp only [sweepFree, if_pos hc] at hs
      rcases List.mem_cons.mp hs with h | h
      · subst h; exact le_refl _
      · exact le_trans (le_max_left _ _) (ih (max current b.stop) s h)
    · simp only [sweepFree, if_neg hc] at hs
      exact le_trans (le_max_left _ _) (ih (max current b.stop) s hs)

/-- Every emitted free slot is nonempty and ends by the final cursor,
provided the busy slots are well formed. -/
theorem sweepFree_slots_bound (bs : List Slot) (current : Int)
    (hwf : ∀ b ∈ bs, b.start ≤ b.stop) :
    ∀ s ∈ (sweepFree current bs).1,
      s.start < s.stop ∧ s.stop ≤ (sweepFree current bs).2 := by
  induction bs generalizing current with
  | nil => intro s hs; simp [sweepFree] at hs
  | cons b rest ih =>
    intro s hs
    have hwf' : ∀ x ∈ rest, x.start ≤ x.stop :=
      fun x hx => hwf x (List.mem_cons_of_mem _ hx)
    by_cases hc : current < b.start
    · simp only [sweepFree, if_pos hc] at hs ⊢
      rcases List.mem_cons.mp hs with h | h
      · subst h
        refine ⟨hc, ?_⟩
        exact le_trans (le_trans (hwf b (List.mem_cons_self _ _)) (le_max_right _ _))
          (sweepFree_le_fin rest (max current b.stop))
      · exact ih (max current b.stop) hwf' s h
    · simp only [sweepFree, if_neg hc] at hs ⊢
      exact ih (max current b.stop) hwf' s hs

/-- Every point between the initial and the final cursor is covered by an
emitted free slot or by a busy slot. -/
theorem sweepFree_cover (bs : List Slot) (current : Int) :
    ∀ x : Int, current ≤ x → x < (sweepFree current bs).2 →
      covers (sweepFree current bs).1 x ∨ covers bs x := by
  induction bs generalizing current with
  | nil => intro x h1 h2; exact absurd h2 (not_lt.mpr h1)
  | cons b rest ih =>
    intro x h1 h2
    by_cases hc : current < b.start
    · simp only [sweepFree, if_pos hc] at h2 ⊢
      by_cases hx : x < b.start
      · exact Or.inl ⟨⟨current, b.start⟩, List.mem_cons_self _ _, h1, hx⟩
      · by_cases hx2 : x < b.stop
        · exact Or.inr ⟨b, List.mem_cons_self _ _, not_lt.mp hx, hx2⟩
        · have hge : max current b.stop ≤ x := max_le h1 (not_lt.mp hx2)
          rcases ih (max current b.stop) x hge h2 with h | h
          · obtain ⟨s, hs, hin⟩ := h
            exact Or.inl ⟨s, List.mem_cons_of_mem _ hs, hin⟩
          · obtain ⟨s, hs, hin⟩ := h
            exact Or.inr ⟨s, List.mem_cons_of_mem _ hs, hin⟩
    · simp only [sweepFree, if_neg hc] at h2 ⊢
      by_cases hx2 : x < b.stop
      · by_cases hx : b.start ≤ x
        · exact Or.inr ⟨b, List.mem_cons_self _ _, hx, hx2⟩
        · exact absurd h1 (by omega)
      · have hge : max current b.stop ≤ x := max_le h1 (not_lt.mp hx2)
        rcases ih (max current b.stop) x hge h2 with h | h
        · obtain ⟨s, hs, hin⟩ := h
          exact Or.inl ⟨s, hs, hin⟩
        · obtain ⟨s, hs, hin⟩ := h
          exact Or.inr ⟨s, List.mem_cons_of_mem _ hs, hin⟩

end CalendarManager

namespace CalendarManager

/-- When the busy list is sorted by start, no emitted free slot meets any
busy slot. -/
theorem sweepFree_not_busy (bs : List Slot) (current : Int)
    (hsorted : bs.Pairwise (fun a b => a.start ≤ b.start)) :
    ∀ x : Int, covers (sweepFree current bs).1 x → ¬ covers bs x := by
  induction bs generalizing current with
  | nil =>
    intro x hx hbusy
    obtain ⟨s, hs, _⟩ := hbusy
    simp at hs
  | cons b rest ih =>
    intro x hx hbusy
    obtain ⟨hhead, htail⟩ := List.pairwise_cons.mp hsorted
    obtain ⟨s, hs, hins⟩ := hbusy
    by_cases hc : current < b.start
    · simp only [sweepFree, if_pos hc] at hx
      obtain ⟨f, hf, hinf⟩ := hx
      rcases List.mem_cons.mp hf with rfl | hf'
      · rcases List.mem_cons.mp hs with rfl | hs'
        · exact absurd hins.1 (not_le.mpr hinf.2)
        · exact absurd (le_trans (hhead s hs') hins.1) (not_le.mpr hinf.2)
      · have hxge : max current b.stop ≤ x :=
          le_trans (sweepFree_start_ge rest (max current b.stop) f hf') hinf.1
        rcases List.mem_cons.mp hs with rfl | hs'
        · exact absurd hins.2 (not_lt.mpr (le_trans (le_max_right _ _) hxge))
        · exact ih (max current b.stop) htail x ⟨f, hf', hinf⟩ ⟨s, hs', hins⟩
    · simp only [sweepFree, if_neg hc] at hx
      obtain ⟨f, hf, hinf⟩ := hx
      have hxge : max current b.stop ≤ x :=
        le_trans (sweepFree_start_ge rest (max current b.stop) f hf) hinf.1
      rcases List.mem_cons.mp hs with rfl | hs'
      · exact absurd hins.2 (not_lt.mpr (le_trans (le_max_right _ _) hxge))
      · exact ih (max current b.stop) htail x ⟨f, hf, hinf⟩ ⟨s, hs', hins⟩

/-- The emitted free slots are chained: each ends no later than the next
one starts. -/
theorem sweepFree_chain (bs : List Slot) (current : Int)
    (hwf : ∀ b ∈ bs, b.start ≤ b.stop) :
    (sweepFree current bs).1.Pairwise (fun a b => a.stop ≤ b.start) := by
  induction bs generalizing current with
  | nil => simp [sweepFree]
  | cons b rest ih =>
    have hwf' : ∀ x ∈ rest, x.start ≤ x.stop :=
      fun x hx => hwf x (List.mem_cons_of_mem _ hx)
    by_cases hc : current < b.start
    · simp only [sweepFree, if_pos hc]
      refine List.pairwise_cons.mpr ⟨?_, ih (max current b.stop) hwf'⟩
      intro y hy
      have h1 := sweepFree_start_ge rest (max current b.stop) y hy
      exact le_trans (hwf b (List.mem_cons_self _ _)) (le_trans (le_max_right _ _) h1)
    · simp only [sweepFree, if_neg hc]
      exact ih (max current b.stop) hwf'

end CalendarManager

namespace CalendarManager

/-- Claim C1: for an availability window confined to a single calendar day
and pairwise non-overlapping busy intervals whose 30-minute-buffered
versions lie fully inside the window, the slots returned by
_compute_free_slots are pairwise disjoint and their union together with the
buffered busy intervals covers the window exactly. -/
theorem C1_free_slots_partition (w : Slot) (busy : List Slot)
    (hw : w.start ≤ w.stop)
    (hday : w.stop ≤ (dateOf w.start + 1) * 86400)
    (hwfb : ∀ b ∈ busy, b.start ≤ b.stop)
    (_hnov : busy.Pairwise (fun a b => a.stop ≤ b.start ∨ b.stop ≤ a.start))
    (hin : ∀ b ∈ busy, w.start ≤ b.start - 30 * 60 ∧ b.stop + 30 * 60 ≤ w.stop) :
    (compute_free_slots [w] busy 30).Pairwise
      (fun a b => ∀ x : Int, ¬(inSlot x a ∧ inSlot x b)) ∧
    ∀ x : Int, inSlot x w ↔
      (covers (compute_free_slots [w] busy 30) x ∨ covers (bufferedBusy 30 busy) x) := by
  clear _hnov
  have hnbin : ∀ s ∈ bufferedBusy 30 busy,
      w.start ≤ s.start ∧ s.stop ≤ w.stop ∧ s.start < s.stop := by
    intro s hs
    obtain ⟨b, hb, rfl⟩ := List.mem_map.mp hs
    have h1 := hin b hb
    have h2 := hwfb b hb
    dsimp only
    refine ⟨by omega, by omega, by omega⟩
  have hdate : ∀ s ∈ bufferedBusy 30 busy, dateOf s.start = dateOf w.start := by
    intro s hs
    obtain ⟨h1, h2, h3⟩ := hnbin s hs
    unfold dateOf at hday ⊢
    omega
  have hbfd : busy_for_day w (bufferedBusy 30 busy) =
      List.insertionSort (fun a b => a.start ≤ b.start) (bufferedBusy 30 busy) := by
    unfold busy_for_day
    congr 1
    have hfil : (bufferedBusy 30 busy).filter
        (fun s => decide (dateOf s.start = dateOf w.start)) = bufferedBusy 30 busy :=
      List.filter_eq_self.mpr (fun s hs => by simpa using hdate s hs)
    rw [hfil]
    have hclip : ∀ s ∈ bufferedBusy 30 busy,
        (⟨max s.start w.start, min s.stop w.stop⟩ : Slot) = id s := by
      intro s hs
      obtain ⟨h1, h2, _⟩ := hnbin s hs
      simp only [id_eq]
      rcases s with ⟨a, c⟩
      simp only [Slot.mk.injEq]
      exact ⟨max_eq_left h1, min_eq_left h2⟩
    rw [List.map_congr_left hclip, List.map_id]
  have hperm : (List.insertionSort (fun a b : Slot => a.start ≤ b.start)
      (bufferedBusy 30 busy)).Perm (bufferedBusy 30 busy) :=
    List.perm_insertionSort _ _
  have hsorted : (List.insertionSort (fun a b : Slot => a.start ≤ b.start)
      (bufferedBusy 30 busy)).Pairwise (fun a b => a.start ≤ b.start) :=
    List.sorted_insertionSort _ _
  have hLin : ∀ s ∈ List.insertionSort (fun a b : Slot => a.start ≤ b.start)
      (bufferedBusy 30 busy),
      w.start ≤ s.start ∧ s.stop ≤ w.stop ∧ s.start < s.stop :=
    fun s hs => hnbin s (hperm.mem_iff.mp hs)
  have hLwf : ∀ s ∈ List.insertionSort (fun a b : Slot => a.start ≤ b.start)
      (bufferedBusy 30 busy),
      s.start ≤ s.stop := fun s hs => le_of_lt (hLin s hs).2.2
  have hcfs : compute_free_slots [w] busy 30 =
      (sweepFree w.start (List.insertionSort (fun a b : Slot => a.start ≤ b.start)
        (bufferedBusy 30 busy))).1 ++
      (if (sweepFree w.start (List.insertionSort (fun a b : Slot => a.start ≤ b.start)
        (bufferedBusy 30 busy))).2 < w.stop then
        [⟨(sweepFree w.start (List.insertionSort (fun a b : Slot => a.start ≤ b.start)
          (bufferedBusy 30 busy))).2, w.stop⟩] else []) := by
    unfold compute_free_slots freeSlotsForDay
    simp only [List.flatMap_cons, List.flatMap_nil, List.append_nil]
    rw [hbfd]
  rw [hcfs]
  set L := List.insertionSort (fun a b : Slot => a.start ≤ b.start)
    (bufferedBusy 30 busy) with hL
  set fin := (sweepFree w.start L).2 with hfin
  have hfin0 : w.start ≤ fin := sweepFree_le_fin L w.start
  have hfinle : fin ≤ w.stop :=
    sweepFree_fin_le L w.start w.stop hw (fun b hb => (hLin b hb).2.1)
  have hbound := sweepFree_slots_bound L w.start hLwf
  have hstarts := sweepFree_start_ge L w.start
  constructor
  · have hpair : ((sweepFree w.start L).1 ++
        (if fin < w.stop then [(⟨fin, w.stop⟩ : Slot)] else [])).Pairwise
        (fun a b => a.stop ≤ b.start) := by
      rw [List.pairwise_append]
      refine ⟨sweepFree_chain L w.start hLwf, ?_, ?_⟩
      · split <;> simp
      · intro a ha b hb
        have hstop := (hbound a ha).2
        split at hb
        · rcases List.mem_singleton.mp hb with rfl
          exact hstop
        · simp at hb
    refine hpair.imp ?_
    intro a b hab x hx
    exact lt_irrefl x (lt_of_lt_of_le hx.1.2 (le_trans hab hx.2.1))
  · intro x
    constructor
    · rintro ⟨hx1, hx2⟩
      by_cases hxf : x < fin
      · rcases sweepFree_cover L w.start x hx1 hxf with h | h
        · obtain ⟨s, hs, hi⟩ := h
          exact Or.inl ⟨s, List.mem_append_left _ hs, hi⟩
        · obtain ⟨s, hs, hi⟩ := h
          exact Or.inr ⟨s, hperm.mem_iff.mp hs, hi⟩
      · have hflt : fin < w.stop := lt_of_le_of_lt (not_lt.mp hxf) hx2
        refine Or.inl ⟨⟨fin, w.stop⟩, ?_, not_lt.mp hxf, hx2⟩
        refine List.mem_append_right _ ?_
        rw [if_pos hflt]
        exact List.mem_singleton.mpr rfl
    · intro h
      rcases h with hfree | hbusy
      · obtain ⟨s, hs, hi⟩ := hfree
        rcases List.mem_append.mp hs with hsf | hst
        · exact ⟨le_trans (hstarts s hsf) hi.1,
            lt_of_lt_of_le hi.2 (le_trans (hbound s hsf).2 hfinle)⟩
        · split at hst
          · rcases List.mem_singleton.mp hst with rfl
            exact ⟨le_trans hfin0 hi.1, hi.2⟩
          · simp at hst
      · obtain ⟨s, hs, hi⟩ := hbusy
        obtain ⟨h1, h2, _⟩ := hnbin s hs
        exact ⟨le_trans h1 hi.1, lt_of_lt_of_le hi.2 h2⟩

/-- Claim C1, witness: a Monday window 09:00 to 18:00 with a single busy
interval 10:00 to 10:30; the computed free slots are 09:00 to 09:30 and
11:00 to 18:00, matching the buffering example of the spec. -/
theorem C1_free_slots_partition_witness :
    compute_free_slots [⟨32400, 64800⟩] [⟨36000, 37800⟩] 30 =
      [⟨32400, 34200⟩, ⟨39600, 64800⟩] ∧
    (compute_free_slots [⟨32400, 64800⟩] [⟨36000, 37800⟩] 30).Pairwise
      (fun a b => ∀ x : Int, ¬(inSlot x a ∧ inSlot x b)) ∧
    ∀ x : Int, inSlot x ⟨32400, 64800⟩ ↔
      (covers (compute_free_slots [⟨32400, 64800⟩] [⟨36000, 37800⟩] 30) x ∨
        covers (bufferedBusy 30 [⟨36000, 37800⟩]) x) := by
  refine ⟨by decide, ?_⟩
  exact C1_free_slots_partition ⟨32400, 64800⟩ [⟨36000, 37800⟩]
    (by decide) (by decide) (by decide) (by decide) (by decide)

end CalendarManager

namespace CalendarManager

/-- Window count of line 147 of _list_available_events: the Python loop
runs over range((end_time - start_time).days + 1), and timedelta
normalization makes .days the floor division of the total seconds by
86400. -/
def window_count (start_time end_time : Int) : Int :=
  (end_time - start_time) / 86400 + 1

/-- Element i of the window list built at lines 140-148: the business-hour
window shifted i whole days from the window of the start day. -/
def winBase (start_time : Int) (i : Nat) : Slot :=
  ⟨replaceHour start_time start_hour + 86400 * (i : Int),
   replaceHour start_time end_hour + 86400 * (i : Int)⟩

/-- The window list of lines 142-148, before the two index overrides. -/
def baseWindows (start_time end_time : Int) : List Slot :=
  (List.range (window_count start_time end_time).toNat).map (winBase start_time)

/-- Mutation of line 150: available_times[-1]["end"] = end_time. -/
def setLastStop (e : Int) : List Slot → List Slot
  | [] => []
  | [s] => [⟨s.start, e⟩]
  | s :: rest => s :: setLastStop e rest

/-- Lines 140-150 of _list_available_events: build the per-period windows
and override the first start to start_time and the last end to end_time.
On an empty window list (end_time more than a day before start_time) the
Python index assignment raises IndexError, modelled as none. -/
def availableWindows (start_time end_time : Int) : Option (List Slot) :=
  match baseWindows start_time end_time with
  | [] => none
  | s :: rest => some (setLastStop end_time (⟨start_time, s.stop⟩ :: rest))

/-- Window i as described by the amended claim C2: business hours shifted i
days, except that window 0 starts at the exact start_time and window n-1
ends at the exact end_time. -/
def winAmended (start_time end_time : Int) (n i : Nat) : Slot :=
  ⟨if i = 0 then start_time else (winBase start_time i).start,
   if i = n - 1 then end_time else (winBase start_time i).stop⟩

/-- The full window list described by the amended claim C2: one window per
started 24-hour period of the requested range (not per calendar day), with
the first start and the last end overridden to the exact bounds. -/
def windowsSpecAmended (start_time end_time : Int) : List Slot :=
  (List.range (window_count start_time end_time).toNat).map
    (winAmended start_time end_time (window_count start_time end_time).toNat)

/-- Overriding the last slot end of a list that ends in a known slot. -/
theorem setLastStop_append (e : Int) (x : Slot) (l : List Slot) :
    setLastStop e (l ++ [x]) = l ++ [⟨x.start, e⟩] := by
  induction l with
  | nil => rfl
  | cons b t ih =>
    cases t with
    | nil => rfl
    | cons c t2 =>
      show b :: setLastStop e ((c :: t2) ++ [x]) = b :: ((c :: t2) ++ [⟨x.start, e⟩])
      exact congrArg (List.cons b) ih

/-- Claim C2, counterexample: for the range Monday 17:00 to Tuesday 10:00
(both bounds untouched by clamping) the range spans two calendar days, yet
exactly one window is built, spanning both days, because the loop counts
whole elapsed 24-hour periods rather than calendar days. -/
theorem C2_counterexample :
    check_valid_date_and_hour_range 61200 = 61200 ∧
    check_valid_date_and_hour_range 122400 = 122400 ∧
    dateOf 122400 - dateOf 61200 + 1 = 2 ∧
    availableWindows 61200 122400 = some [⟨61200, 122400⟩] := by decide

/-- Claim C2, amended: one window is built per started 24-hour period of
the clamped range, namely floor((timeMax - timeMin) / 1 day) + 1 windows in
total; window i covers business hours i whole days after the start day,
except that the first window start is the exact clamped timeMin and the
last window end is the exact clamped timeMax. -/
theorem C2_amended_window_construction (start_time end_time : Int)
    (h : start_time ≤ end_time) :
    availableWindows start_time end_time = some (windowsSpecAmended start_time end_time) ∧
    (windowsSpecAmended start_time end_time).length =
      (window_count start_time end_time).toNat := by
  have h0 : 0 ≤ (end_time - start_time) / 86400 :=
    Int.ediv_nonneg (by omega) (by norm_num)
  obtain ⟨m, hm⟩ : ∃ m, (window_count start_time end_time).toNat = m + 1 := by
    unfold window_count
    exact ⟨((end_time - start_time) / 86400 + 1).toNat - 1, by omega⟩
  refine ⟨?_, by simp [windowsSpecAmended]⟩
  unfold availableWindows baseWindows windowsSpecAmended
  rw [hm, List.range_succ_eq_map, List.map_cons]
  show some (setLastStop end_time
      (⟨start_time, (winBase start_time 0).stop⟩ ::
        (List.map Nat.succ (List.range m)).map (winBase start_time))) = _
  rw [List.map_cons]
  cases m with
  | zero =>
    simp only [List.range_zero, List.map_nil]
    show some [(⟨start_time, end_time⟩ : Slot)] = _
    simp [winAmended, winBase]
  | succ m' =>
    rw [List.range_succ, List.map_append, List.map_append, List.map_singleton,
      List.map_singleton, ← List.cons_append, setLastStop_append]
    have hcong : ∀ i ∈ List.map Nat.succ (List.range m'),
        winBase start_time i = winAmended start_time end_time (m' + 1 + 1) i := by
      intro i hi
      obtain ⟨j, hj, rfl⟩ := List.mem_map.mp hi
      have hjlt := List.mem_range.mp hj
      unfold winAmended
      rw [if_neg (by omega), if_neg (by omega)]
    rw [List.map_congr_left hcong]
    have hhead : (⟨start_time, (winBase start_time 0).stop⟩ : Slot) =
        winAmended start_time end_time (m' + 1 + 1) 0 := by
      unfold winAmended
      rw [if_pos rfl, if_neg (by omega)]
    have hlast : (⟨(winBase start_time (Nat.succ m')).start, end_time⟩ : Slot) =
        winAmended start_time end_time (m' + 1 + 1) (Nat.succ m') := by
      unfold winAmended
      rw [if_neg (by omega), if_pos (by omega)]
    rw [hhead, hlast]
    simp

/-- Claim C2, witness: the amended construction evaluated on the range
Monday 17:00 to Wednesday 10:00, which builds two windows. -/
theorem C2_amended_window_construction_witness :
    (availableWindows 61200 208800 = some (windowsSpecAmended 61200 208800) ∧
      (windowsSpecAmended 61200 208800).length = (window_count 61200 208800).toNat) ∧
    windowsSpecAmended 61200 208800 = [⟨61200, 64800⟩, ⟨118800, 208800⟩] :=
  ⟨C2_amended_window_construction 61200 208800 (by decide), by decide⟩

end CalendarManager

namespace CalendarManager

/-- A calendar event as the booking flow reads and patches it (spec
CalendarEvent).  Attendees are carried as their email strings, the only
attendee field the engine reads or writes.  The description and
conference-data fields are omitted: no modelled claim mentions them. -/
structure Event where
  summary : String
  start : Int
  stop : Int
  attendees : List String
deriving DecidableEq, Repr

/-- Modelled from the spec: outcome vocabulary of createOrUpdateMeeting
(spec section 4.6, steps 1, 4 and 7), whose implementation is not under
src/; only the alternate confirmation_meeting flow is. -/
inductive BookingOutcome
  | created
  | updated
  | rejectedWeekend
  | rejectedHours
  | conflict
deriving DecidableEq, Repr

/-- Python str.lower(), computed character by character (ASCII case
folding, which covers every title and email the engine compares). -/
def lowerStr (s : String) : String := ⟨s.data.map Char.toLower⟩

/-- Case-insensitive attendee membership, as in lines 367-368 of
confirmation_meeting in src (emails compared lower-cased). -/
def hasAttendee (attendees : List String) (email : String) : Bool :=
  (attendees.map lowerStr).contains (lowerStr email)

/-- Attendee merge of lines 366-369 of confirmation_meeting in src: append
the invitee only when the email is nonempty and not already present
lower-cased. -/
def merge_attendees (attendees : List String) (invite_email : String) : List String :=
  if invite_email ≠ "" ∧ ¬ hasAttendee attendees invite_email then
    attendees ++ [invite_email]
  else attendees

/-- Modelled from the spec: the existing-event match of step 3 of
createOrUpdateMeeting (case-insensitive title equality, same calendar day,
invitee already in attendees). -/
def matchesExisting (titre invite_email : String) (time_min : Int) (ev : Event) : Bool :=
  decide (dateOf ev.start = dateOf time_min) &&
  (lowerStr ev.summary == lowerStr titre) &&
  hasAttendee ev.attendees invite_email

/-- Modelled from the spec: the conflict test of step 4 of
createOrUpdateMeeting: the requested window contains, inclusively, the
start or the end of an existing event. -/
def overlapsWindow (time_min time_max : Int) (ev : Event) : Bool :=
  (decide (time_min ≤ ev.start) && decide (ev.start ≤ time_max)) ||
  (decide (time_min ≤ ev.stop) && decide (ev.stop ≤ time_max))

/-- Patch of the first event satisfying a predicate, leaving the rest of
the calendar unchanged, as the external update call does. -/
def updateFirstMatch (p : Event → Bool) (f : Event → Event) : List Event → List Event
  | [] => []
  | ev :: rest => if p ev then f ev :: rest else ev :: updateFirstMatch p f rest

/-- Modelled from the spec: createOrUpdateMeeting (spec section 4.6),
absent from src/.  Steps 1-7 of the spec are followed: weekend and
business-hour rejection, existing-event search, conflict test on the
events of the day in the create path, creation with the fresh attendee
list, update merging the invitee into the existing attendees deduplicated
by email (the merge is the src confirmation_meeting merge).  The result
pairs the outcome with the event list after the call. -/
def createOrUpdateMeeting (events : List Event) (time_min time_max : Int)
    (invite_email titre : String) : BookingOutcome × List Event :=
  if weekday time_min ≥ 5 then (.rejectedWeekend, events)
  else if hourOf time_min < start_hour ∨ hourOf time_max > end_hour then
    (.rejectedHours, events)
  else
    match events.find? (matchesExisting titre invite_email time_min) with
    | some _ =>
      (.updated, updateFirstMatch (matchesExisting titre invite_email time_min)
        (fun ev => ⟨titre, ev.start, ev.stop, merge_attendees ev.attendees invite_email⟩)
        events)
    | none =>
      if (events.filter (fun ev => decide (dateOf ev.start = dateOf time_min))).any
          (overlapsWindow time_min time_max) then
        (.conflict, events)
      else
        (.created, events ++ [⟨titre, time_min, time_max, [invite_email]⟩])

/-- Patching the last event of a list whose prefix contains no match. -/
theorem updateFirstMatch_append (p : Event → Bool) (f : Event → Event) (l : List Event)
    (x : Event) (hl : ∀ ev ∈ l, p ev = false) (hx : p x = true) :
    updateFirstMatch p f (l ++ [x]) = l ++ [f x] := by
  induction l with
  | nil => simp [updateFirstMatch, hx]
  | cons a t ih =>
    have ha := hl a (List.mem_cons_self _ _)
    simp [updateFirstMatch, ha, ih (fun ev hev => hl ev (List.mem_cons_of_mem _ hev))]

/-- Claim C5: in the create path (window passes the policy checks and no
existing event matches), a requested window that inclusively contains the
start or the end of an existing event of that day yields the conflict
outcome and leaves the calendar unchanged: no insert happens. -/
theorem C5_create_conflict_rejected (events : List Event) (time_min time_max : Int)
    (invite_email titre : String)
    (hwk : weekday time_min < 5)
    (hh1 : start_hour ≤ hourOf time_min) (hh2 : hourOf time_max ≤ end_hour)
    (hnomatch : ∀ ev ∈ events, matchesExisting titre invite_email time_min ev = false)
    (hconf : ∃ ev ∈ events, dateOf ev.start = dateOf time_min ∧
      overlapsWindow time_min time_max ev = true) :
    createOrUpdateMeeting events time_min time_max invite_email titre =
      (.conflict, events) := by
  unfold createOrUpdateMeeting
  rw [if_neg (by omega), if_neg (by omega)]
  have hfind : events.find? (matchesExisting titre invite_email time_min) = none := by
    rw [List.find?_eq_none]
    intro ev hev
    simp [hnomatch ev hev]
  rw [hfind]
  obtain ⟨ev, hev, hday, hov⟩ := hconf
  have hany : (events.filter (fun ev => decide (dateOf ev.start = dateOf time_min))).any
      (overlapsWindow time_min time_max) = true := by
    rw [List.any_eq_true]
    exact ⟨ev, List.mem_filter.mpr ⟨hev, by simpa using hday⟩, hov⟩
  rw [if_pos hany]

/-- Claim C5, witness: requesting Monday 14:00 to 15:00 against a calendar
holding an unrelated event Monday 14:30 to 15:30 is rejected as a conflict
and the calendar is unchanged. -/
theorem C5_create_conflict_rejected_witness :
    createOrUpdateMeeting [⟨"Standup", 52200, 55800, []⟩] 50400 54000
      "alice@example.com" "Sync" = (.conflict, [⟨"Standup", 52200, 55800, []⟩]) :=
  C5_create_conflict_rejected [⟨"Standup", 52200, 55800, []⟩] 50400 54000
    "alice@example.com" "Sync" (by decide) (by decide) (by decide)
    (by decide)
    ⟨⟨"Standup", 52200, 55800, []⟩, by simp, by decide, by decide⟩

end CalendarManager

namespace CalendarManager

/-- Claim C6: booking twice with identical title, window and invitee on a
day previously free of events creates the event on the first call and
yields the updated outcome on the second call, with the invitee present
exactly once in the attendees of the resulting event: the merge
deduplicates by email instead of appending a second copy. -/
theorem C6_booking_idempotent (events : List Event) (time_min time_max : Int)
    (invite_email titre : String)
    (hwk : weekday time_min < 5)
    (hh1 : start_hour ≤ hourOf time_min) (hh2 : hourOf time_max ≤ end_hour)
    (hclear : ∀ ev ∈ events, dateOf ev.start ≠ dateOf time_min) :
    createOrUpdateMeeting events time_min time_max invite_email titre =
      (.created, events ++ [⟨titre, time_min, time_max, [invite_email]⟩]) ∧
    createOrUpdateMeeting (events ++ [⟨titre, time_min, time_max, [invite_email]⟩])
        time_min time_max invite_email titre =
      (.updated, events ++ [⟨titre, time_min, time_max, [invite_email]⟩]) ∧
    ((⟨titre, time_min, time_max, [invite_email]⟩ : Event)).attendees.count invite_email
      = 1 := by
  have hmf : ∀ ev ∈ events, matchesExisting titre invite_email time_min ev = false := by
    intro ev hev
    unfold matchesExisting
    simp [hclear ev hev]
  have hnew : matchesExisting titre invite_email time_min
      ⟨titre, time_min, time_max, [invite_email]⟩ = true := by
    unfold matchesExisting hasAttendee
    simp
  have hfind : events.find? (matchesExisting titre invite_email time_min) = none := by
    rw [List.find?_eq_none]
    intro ev hev
    simp [hmf ev hev]
  refine ⟨?_, ?_, by simp⟩
  · unfold createOrUpdateMeeting
    rw [if_neg (by omega), if_neg (by omega), hfind]
    have hfil : events.filter (fun ev => decide (dateOf ev.start = dateOf time_min))
        = [] := by
      rw [List.filter_eq_nil_iff]
      intro ev hev
      simp [hclear ev hev]
    rw [hfil]
    rfl
  · unfold createOrUpdateMeeting
    rw [if_neg (by omega), if_neg (by omega)]
    have hfind2 : (events ++ [(⟨titre, time_min, time_max, [invite_email]⟩ : Event)]).find?
        (matchesExisting titre invite_email time_min) =
        some ⟨titre, time_min, time_max, [invite_email]⟩ := by
      rw [List.find?_append, hfind, List.find?_cons, hnew]
      rfl
    rw [hfind2]
    rw [updateFirstMatch_append _ _ events _ hmf hnew]
    have hmerge : merge_attendees [invite_email] invite_email = [invite_email] := by
      unfold merge_attendees hasAttendee
      simp
    simp only [hmerge]

/-- Claim C6, witness: booking Monday 10:00 to 11:00 twice on an empty
calendar with the same title and invitee; the second call updates and the
invitee appears once. -/
theorem C6_booking_idempotent_witness :
    createOrUpdateMeeting [] 36000 39600 "alice@example.com" "Sync" =
      (.created, [⟨"Sync", 36000, 39600, ["alice@example.com"]⟩]) ∧
    createOrUpdateMeeting [⟨"Sync", 36000, 39600, ["alice@example.com"]⟩]
        36000 39600 "alice@example.com" "Sync" =
      (.updated, [⟨"Sync", 36000, 39600, ["alice@example.com"]⟩]) ∧
    ((⟨"Sync", 36000, 39600, ["alice@example.com"]⟩ : Event)).attendees.count
      "alice@example.com" = 1 :=
  C6_booking_idempotent [] 36000 39600 "alice@example.com" "Sync"
    (by decide) (by decide) (by decide) (by decide)

end CalendarManager

namespace CalendarManager

/-- Messages and exceptions the engine formats into strings; each
constructor stands for one format string of calendar_manager.py together
with its interpolated values (string rendering is outside the model). -/
inductive Msg
  | fetchError (e : String)
  | indexError
  | errorProcessingRange (inner : Msg)
  | slotsAfterDate (anchorDay endDay : Int) (slots : List Slot)
  | noSlotsUntil (anchorDay endDay : Int)
  | errorFindingSlots (inner : Msg)
  | noSlotsBetween (a b : Int)
  | noSlotsTwoWeeks
deriving DecidableEq, Repr

instance {ε α : Type} [DecidableEq ε] [DecidableEq α] : DecidableEq (Except ε α)
  | .error e1, .error e2 =>
    if h : e1 = e2 then .isTrue (congrArg Except.error h)
    else .isFalse (fun hc => h (Except.error.inj hc))
  | .error _, .ok _ => .isFalse (fun hc => Except.noConfusion hc)
  | .ok _, .error _ => .isFalse (fun hc => Except.noConfusion hc)
  | .ok x, .ok y =>
    if h : x = y then .isTrue (congrArg Except.ok h)
    else .isFalse (fun hc => h (Except.ok.inj hc))

/-- The external free/busy query of lines 115-121, abstracted as an oracle
from the queried bounds to either the parsed busy list or a raised
exception message. -/
def Fetch : Type := Int → Int → Except String (List Slot)

/-- CalendarManager._list_available_events (lines 105-163) over a fetch
oracle: clamp both bounds (time_max defaults to time_min), fetch busy
times for the span up to midnight after the clamped end, build the
windows, run the free-slot computation and the post-filters.  Every
exception inside the body is re-raised as the RuntimeError of line 163:
a fetch failure and the IndexError raised by the override of line 149 on
an empty window list both surface as errors.  The second component lists
the freebusy calls made (the bounds passed to the service). -/
def list_available_events_run (fetch : Fetch) (time_min : Int)
    (time_max : Option Int) : Except Msg (List Slot) × List (Int × Int) :=
  let start_time := check_valid_date_and_hour_range time_min
  let end_time := check_valid_date_and_hour_range (time_max.getD time_min)
  let end_temp := dateOf end_time * 86400 + 86400
  match fetch start_time end_temp with
  | .error e => (.error (.errorProcessingRange (.fetchError e)), [(start_time, end_temp)])
  | .ok busy_times =>
    match availableWindows start_time end_time with
    | none => (.error (.errorProcessingRange .indexError), [(start_time, end_temp)])
    | some windows =>
      (.ok (postFilter (compute_free_slots windows busy_times 30)), [(start_time, end_temp)])

/-- One pass of the loop at lines 176-179: advance one day, then keep
advancing while the landed day is a weekend, which counts exactly one
business day. -/
def bstep (t : Int) : Int :=
  if weekday (t + 86400) = 5 then t + 3 * 86400
  else if weekday (t + 86400) = 6 then t + 2 * 86400
  else t + 86400

/-- The loop of lines 175-179: the n-th weekday strictly after t, keeping
the time of day. -/
def businessEnd (t : Int) : Nat → Int
  | 0 => t
  | n + 1 => businessEnd (bstep t) n

/-- CalendarManager._find_available_slots_after_date (lines 165-188):
clamp the date, advance number_of_days business days, force the end hour
to end_hour, query the range, and always return a message; the try/except
of line 187 converts every exception into the error message. -/
def find_available_slots_after_date_run (fetch : Fetch) (specific_date : Int)
    (number_of_days : Nat) : Msg × List (Int × Int) :=
  let start_of_day := check_valid_date_and_hour_range specific_date
  let end_of_day := replaceHour (businessEnd start_of_day number_of_days) end_hour
  match list_available_events_run fetch start_of_day (some end_of_day) with
  | (.error e, tr) => (.errorFindingSlots e, tr)
  | (.ok slots, tr) =>
    if slots ≠ [] then
      (.slotsAfterDate (dateOf specific_date) (dateOf end_of_day) slots, tr)
    else (.noSlotsUntil (dateOf specific_date) (dateOf end_of_day), tr)

/-- CalendarManager.find_available_by_specific_date (lines 190-204): query
the single business day and return the slots if any, otherwise delegate to
the seven-day lookahead.  No try/except surrounds this body, so an error
raised by the range query propagates to the caller. -/
def find_available_by_specific_date_run (fetch : Fetch) (specific_date : Int) :
    Except Msg (List Slot ⊕ Msg) × List (Int × Int) :=
  match list_available_events_run fetch (replaceHour specific_date start_hour)
      (some (replaceHour specific_date end_hour)) with
  | (.error m, tr) => (.error m, tr)
  | (.ok slots, tr) =>
    if slots.length > 0 then (.ok (.inl slots), tr)
    else
      let fb := find_available_slots_after_date_run fetch specific_date 7
      (.ok (.inr fb.1), tr ++ fb.2)

/-- Continuation of find_available_by_date_range from line 225: query the
range, return the slots if any, otherwise run the lookahead anchored at
the clamped end and return the fixed no-slots-between message, discarding
the lookahead result. -/
def find_available_by_date_range_rest (fetch : Fetch) (start e : Int)
    (start_date end_date : Int) (tr0 : List (Int × Int)) :
    (List Slot ⊕ Msg) × List (Int × Int) :=
  match list_available_events_run fetch start (some e) with
  | (.error m, tr) => (.inr (.errorFindingSlots m), tr0 ++ tr)
  | (.ok slots, tr) =>
    if slots.length > 0 then (.inl slots, tr0 ++ tr)
    else
      let fb := find_available_slots_after_date_run fetch e 7
      (.inr (.noSlotsBetween start_date end_date), tr0 ++ tr ++ fb.2)

/-- CalendarManager.find_available_by_date_range (lines 206-236): clamp
both bounds; on a same-day range query once and return early on slots;
then run the continuation above.  The try/except of line 235 turns every
raised error into a message, so the function itself never raises. -/
def find_available_by_date_range_run (fetch : Fetch) (start_date end_date : Int) :
    (List Slot ⊕ Msg) × List (Int × Int) :=
  let start := check_valid_date_and_hour_range start_date
  let e := check_valid_date_and_hour_range end_date
  if dateOf start = dateOf e then
    match list_available_events_run fetch start (some e) with
    | (.error m, tr) => (.inr (.errorFindingSlots m), tr)
    | (.ok slots, tr) =>
      if slots.length > 0 then (.inl slots, tr)
      else find_available_by_date_range_rest fetch start e start_date end_date tr
  else find_available_by_date_range_rest fetch start e start_date end_date []

/-- CalendarManager.find_available_without_date (lines 238-268) as a
function of the current time: push the anchor to the next calendar day at
start_hour when the hour is at or past end_hour, to start_hour of the same
day when before start_hour; query a seven-day window, then a fourteen-day
window, then return the fixed two-weeks message.  The try/except of line
267 turns every raised error into a message.  The anchor computation of
lines 247-254 is split out as without_date_anchor below. -/
def without_date_anchor (now : Int) : Int :=
  check_valid_date_and_hour_range
    (if hourOf now ≥ end_hour then replaceHour (now + 86400) start_hour
     else if hourOf now < start_hour then replaceHour now start_hour
     else now)

/-- Body of find_available_without_date over the anchor above. -/
def find_available_without_date_run (fetch : Fetch) (now : Int) :
    (List Slot ⊕ Msg) × List (Int × Int) :=
  let sd := without_date_anchor now
  match list_available_events_run fetch sd (some (sd + 7 * 86400)) with
  | (.error m, tr) => (.inr (.errorFindingSlots m), tr)
  | (.ok slots, tr) =>
    if slots.length > 0 then (.inl slots, tr)
    else
      match list_available_events_run fetch sd (some (sd + 14 * 86400)) with
      | (.error m, tr2) => (.inr (.errorFindingSlots m), tr ++ tr2)
      | (.ok slots2, tr2) =>
        if slots2.length > 0 then (.inl slots2, tr ++ tr2)
        else (.inr .noSlotsTwoWeeks, tr ++ tr2)

end CalendarManager

namespace CalendarManager

/-- Clamping is the identity on a timestamp already at start_hour sharp. -/
theorem check_valid_replaceHour_start (d : Int) :
    check_valid_date_and_hour_range (replaceHour d start_hour) = replaceHour d start_hour := by
  unfold check_valid_date_and_hour_range replaceHour hourOf dateOf start_hour end_hour
  split_ifs <;> omega

/-- Clamping is the identity on a timestamp already at end_hour sharp. -/
theorem check_valid_replaceHour_end (d : Int) :
    check_valid_date_and_hour_range (replaceHour d end_hour) = replaceHour d end_hour := by
  unfold check_valid_date_and_hour_range replaceHour hourOf dateOf start_hour end_hour
  split_ifs <;> omega

/-- The window list of a non-reversed range is built successfully. -/
theorem availableWindows_isSome (s e : Int) (h : s ≤ e) :
    ∃ ws, availableWindows s e = some ws := by
  have h0 : 0 ≤ (e - s) / 86400 := Int.ediv_nonneg (by omega) (by norm_num)
  obtain ⟨m, hm⟩ : ∃ m, (window_count s e).toNat = m + 1 := by
    unfold window_count
    exact ⟨((e - s) / 86400 + 1).toNat - 1, by omega⟩
  unfold availableWindows baseWindows
  rw [hm, List.range_succ_eq_map, List.map_cons]
  exact ⟨_, rfl⟩

/-- A range query against an always-failing fetch raises the wrapped
RuntimeError after its single freebusy call. -/
theorem list_run_fetch_error (fetch : Fetch) (err : String)
    (hf : ∀ a b, fetch a b = Except.error err) (tmin : Int) (tmax : Option Int) :
    list_available_events_run fetch tmin tmax =
      (.error (.errorProcessingRange (.fetchError err)),
       [(check_valid_date_and_hour_range tmin,
         dateOf (check_valid_date_and_hour_range (tmax.getD tmin)) * 86400 + 86400)]) := by
  simp only [list_available_events_run, hf]

/-- The trace of a range query is always its single freebusy call. -/
theorem list_run_trace (fetch : Fetch) (tmin : Int) (tmax : Option Int) :
    (list_available_events_run fetch tmin tmax).2 =
      [(check_valid_date_and_hour_range tmin,
        dateOf (check_valid_date_and_hour_range (tmax.getD tmin)) * 86400 + 86400)] := by
  simp only [list_available_events_run]
  split
  · rfl
  · split <;> rfl

/-- Claim C7: under a failing calendar fetch the range query raises the
propagated wrapped error, the lookahead fallback catches it and returns
the descriptive message, the date-range and no-date operations return
messages rather than raising, and the specific-date operation is the one
public operation that propagates, doing so exactly when its own freebusy
call fails. -/
theorem C7_fetch_failure_only_propagated_error :
    (∀ (fetch : Fetch) (err : String), (∀ a b, fetch a b = Except.error err) →
      (∀ tmin tmax, (list_available_events_run fetch tmin tmax).1 =
          .error (.errorProcessingRange (.fetchError err))) ∧
      (∀ d n, (find_available_slots_after_date_run fetch d n).1 =
          .errorFindingSlots (.errorProcessingRange (.fetchError err))) ∧
      (∀ s e, (find_available_by_date_range_run fetch s e).1 =
          .inr (.errorFindingSlots (.errorProcessingRange (.fetchError err)))) ∧
      (∀ now, (find_available_without_date_run fetch now).1 =
          .inr (.errorFindingSlots (.errorProcessingRange (.fetchError err)))) ∧
      (∀ d, (find_available_by_specific_date_run fetch d).1 =
          .error (.errorProcessingRange (.fetchError err)))) ∧
    (∀ (fetch : Fetch) (d : Int) (m : Msg),
      (find_available_by_specific_date_run fetch d).1 = .error m →
      ∃ err, m = .errorProcessingRange (.fetchError err) ∧
        fetch (replaceHour d start_hour)
          (dateOf (replaceHour d end_hour) * 86400 + 86400) = Except.error err) := by
  constructor
  · intro fetch err hf
    refine ⟨fun tmin tmax => by rw [list_run_fetch_error fetch err hf],
      fun d n => ?_, fun s e => ?_, fun now => ?_, fun d => ?_⟩
    · simp only [find_available_slots_after_date_run, list_run_fetch_error fetch err hf]
    · simp only [find_available_by_date_range_run, find_available_by_date_range_rest,
        list_run_fetch_error fetch err hf]
      split <;> rfl
    · simp only [find_available_without_date_run, list_run_fetch_error fetch err hf]
    · simp only [find_available_by_specific_date_run, list_run_fetch_error fetch err hf]
  · intro fetch d m hm
    rcases hfb : fetch (replaceHour d start_hour)
        (dateOf (replaceHour d end_hour) * 86400 + 86400) with e' | busy
    · have hrun : list_available_events_run fetch (replaceHour d start_hour)
          (some (replaceHour d end_hour)) =
          (.error (.errorProcessingRange (.fetchError e')),
           [(replaceHour d start_hour, dateOf (replaceHour d end_hour) * 86400 + 86400)]) := by
        simp only [list_available_events_run, Option.getD_some,
          check_valid_replaceHour_start, check_valid_replaceHour_end, hfb]
      simp only [find_available_by_specific_date_run, hrun] at hm
      refine ⟨e', ?_, rfl⟩
      simpa using hm.symm
    · obtain ⟨ws, hws⟩ := availableWindows_isSome (replaceHour d start_hour)
        (replaceHour d end_hour)
        (by unfold replaceHour start_hour end_hour; omega)
      have hrun : list_available_events_run fetch (replaceHour d start_hour)
          (some (replaceHour d end_hour)) =
          (.ok (postFilter (compute_free_slots ws busy 30)),
           [(replaceHour d start_hour, dateOf (replaceHour d end_hour) * 86400 + 86400)]) := by
        simp only [list_available_events_run, Option.getD_some,
          check_valid_replaceHour_start, check_valid_replaceHour_end, hfb, hws]
      simp only [find_available_by_specific_date_run, hrun] at hm
      split at hm <;> simp at hm

/-- The always-failing fetch oracle used by the C7 witness. -/
def fetchFail : Fetch := fun _ _ => Except.error "boom"

/-- Claim C7, witness: the five behaviors under an always-failing fetch,
evaluated at Monday 10:00 inputs. -/
theorem C7_fetch_failure_only_propagated_error_witness :
    (list_available_events_run fetchFail 36000 (some 122400)).1 =
      .error (.errorProcessingRange (.fetchError "boom")) ∧
    (find_available_slots_after_date_run fetchFail 36000 7).1 =
      .errorFindingSlots (.errorProcessingRange (.fetchError "boom")) ∧
    (find_available_by_date_range_run fetchFail 36000 122400).1 =
      .inr (.errorFindingSlots (.errorProcessingRange (.fetchError "boom"))) ∧
    (find_available_without_date_run fetchFail 36000).1 =
      .inr (.errorFindingSlots (.errorProcessingRange (.fetchError "boom"))) ∧
    (find_available_by_specific_date_run fetchFail 36000).1 =
      .error (.errorProcessingRange (.fetchError "boom")) :=
  ⟨(C7_fetch_failure_only_propagated_error.1 fetchFail "boom" (fun _ _ => rfl)).1
      36000 (some 122400),
   (C7_fetch_failure_only_propagated_error.1 fetchFail "boom" (fun _ _ => rfl)).2.1 36000 7,
   (C7_fetch_failure_only_propagated_error.1 fetchFail "boom" (fun _ _ => rfl)).2.2.1
      36000 122400,
   (C7_fetch_failure_only_propagated_error.1 fetchFail "boom" (fun _ _ => rfl)).2.2.2.1 36000,
   (C7_fetch_failure_only_propagated_error.1 fetchFail "boom" (fun _ _ => rfl)).2.2.2.2 36000⟩

end CalendarManager

namespace CalendarManager

/-- Claim C8: the date-range operation returns the slot list whenever the
range query finds slots; when the range query finds none, it runs the
lookahead anchored at the clamped end (whose freebusy calls end the trace)
yet returns the fixed no-slots-between message, discarding the lookahead
result whatever it is. -/
theorem C8_date_range_fallback (fetch : Fetch) (start_date end_date : Int) :
    (∀ slots tr, list_available_events_run fetch
        (check_valid_date_and_hour_range start_date)
        (some (check_valid_date_and_hour_range end_date)) = (.ok slots, tr) →
      slots ≠ [] →
      (find_available_by_date_range_run fetch start_date end_date).1 = .inl slots) ∧
    (∀ tr, list_available_events_run fetch
        (check_valid_date_and_hour_range start_date)
        (some (check_valid_date_and_hour_range end_date)) = (.ok [], tr) →
      (find_available_by_date_range_run fetch start_date end_date).1 =
        .inr (.noSlotsBetween start_date end_date) ∧
      ∃ tr0, (find_available_by_date_range_run fetch start_date end_date).2 =
        tr0 ++ (find_available_slots_after_date_run fetch
          (check_valid_date_and_hour_range end_date) 7).2) := by
  constructor
  · intro slots tr hrun hne
    have hpos : slots.length > 0 := List.length_pos.mpr hne
    simp only [find_available_by_date_range_run, find_available_by_date_range_rest, hrun,
      if_pos hpos]
    split <;> rfl
  · intro tr hrun
    by_cases hsd : dateOf (check_valid_date_and_hour_range start_date) =
        dateOf (check_valid_date_and_hour_range end_date)
    · constructor
      · simp [find_available_by_date_range_run, find_available_by_date_range_rest,
          hrun, hsd]
      · refine ⟨tr ++ tr, ?_⟩
        simp [find_available_by_date_range_run, find_available_by_date_range_rest,
          hrun, hsd]
    · constructor
      · simp [find_available_by_date_range_run, find_available_by_date_range_rest,
          hrun, hsd]
      · refine ⟨tr, ?_⟩
        simp [find_available_by_date_range_run, find_available_by_date_range_rest,
          hrun, hsd]

/-- The no-busy fetch oracle used by witnesses and the C9 counterexample. -/
def fetchEmpty : Fetch := fun _ _ => Except.ok []

/-- Claim C8, witness: an empty calendar from Monday 10:00 to Tuesday 10:00
yields the two computed slots; a Saturday range yields no slots (weekend
filter) and the fixed no-slots-between message with the lookahead trace
appended. -/
theorem C8_date_range_fallback_witness :
    (find_available_by_date_range_run fetchEmpty 36000 122400).1 =
      .inl [⟨36000, 64800⟩, ⟨118800, 122400⟩] ∧
    (find_available_by_date_range_run fetchEmpty 468000 471600).1 =
      .inr (.noSlotsBetween 468000 471600) ∧
    ∃ tr0, (find_available_by_date_range_run fetchEmpty 468000 471600).2 =
      tr0 ++ (find_available_slots_after_date_run fetchEmpty
        (check_valid_date_and_hour_range 471600) 7).2 := by
  refine ⟨(C8_date_range_fallback fetchEmpty 36000 122400).1
      [⟨36000, 64800⟩, ⟨118800, 122400⟩] [(36000, 172800)] (by decide) (by decide), ?_, ?_⟩
  · exact ((C8_date_range_fallback fetchEmpty 468000 471600).2
      [(468000, 518400)] (by decide)).1
  · exact ((C8_date_range_fallback fetchEmpty 468000 471600).2
      [(468000, 518400)] (by decide)).2

end CalendarManager

namespace CalendarManager

/-- Clamping to business hours is idempotent. -/
theorem check_valid_idem (t : Int) :
    check_valid_date_and_hour_range (check_valid_date_and_hour_range t) =
      check_valid_date_and_hour_range t := by
  by_cases h1 : hourOf t < start_hour
  · rw [show check_valid_date_and_hour_range t = replaceHour t start_hour from by
      unfold check_valid_date_and_hour_range; rw [if_pos h1]]
    exact check_valid_replaceHour_start t
  · by_cases h2 : hourOf t > end_hour
    · rw [show check_valid_date_and_hour_range t = replaceHour t end_hour from by
        unfold check_valid_date_and_hour_range; rw [if_neg h1, if_pos h2]]
      exact check_valid_replaceHour_end t
    · have hid : check_valid_date_and_hour_range t = t := by
        unfold check_valid_date_and_hour_range; rw [if_neg h1, if_neg h2]
      rw [hid, hid]

/-- The anchor is stable under clamping. -/
theorem check_valid_anchor (now : Int) :
    check_valid_date_and_hour_range (without_date_anchor now) = without_date_anchor now := by
  unfold without_date_anchor
  exact check_valid_idem _

/-- Claim C9, counterexample: at Friday 19:00 the code anchors the no-date
search at Saturday 09:00, the next calendar day, not at the next business
day as the claim asserts: the first freebusy call of the operation starts
on a Saturday (weekday 5). -/
theorem C9_counterexample :
    hourOf 414000 ≥ end_hour ∧ weekday 414000 = 4 ∧
    (find_available_without_date_run fetchEmpty 414000).2.head? =
      some (464400, 1123200) ∧
    weekday 464400 = 5 := by decide

/-- Claim C9, amended: the no-date search anchors at the current time,
pushed to the next calendar day (weekend or not) at start_hour when the
hour is at or past end_hour and to start_hour of the same day when before
start_hour; it queries a 7-day window anchored there, queries a 14-day
window when the first yields no slots, and returns the fixed two-weeks
message when both are empty. -/
theorem C9_amended_no_date_lookahead (fetch : Fetch) (now : Int) :
    (if hourOf now ≥ end_hour then
       without_date_anchor now = replaceHour (now + 86400) start_hour
     else if hourOf now < start_hour then
       without_date_anchor now = replaceHour now start_hour
     else without_date_anchor now = now) ∧
    (find_available_without_date_run fetch now).2.head? =
      some (without_date_anchor now,
        dateOf (check_valid_date_and_hour_range (without_date_anchor now + 7 * 86400)) *
          86400 + 86400) ∧
    (∀ s1 tr1, list_available_events_run fetch (without_date_anchor now)
        (some (without_date_anchor now + 7 * 86400)) = (.ok s1, tr1) → s1 ≠ [] →
      (find_available_without_date_run fetch now).1 = .inl s1) ∧
    (∀ tr1 s2 tr2, list_available_events_run fetch (without_date_anchor now)
        (some (without_date_anchor now + 7 * 86400)) = (.ok [], tr1) →
      list_available_events_run fetch (without_date_anchor now)
        (some (without_date_anchor now + 14 * 86400)) = (.ok s2, tr2) → s2 ≠ [] →
      (find_available_without_date_run fetch now).1 = .inl s2) ∧
    (∀ tr1 tr2, list_available_events_run fetch (without_date_anchor now)
        (some (without_date_anchor now + 7 * 86400)) = (.ok [], tr1) →
      list_available_events_run fetch (without_date_anchor now)
        (some (without_date_anchor now + 14 * 86400)) = (.ok [], tr2) →
      (find_available_without_date_run fetch now).1 = .inr .noSlotsTwoWeeks) := by
  refine ⟨?_, ?_, ?_, ?_, ?_⟩
  · unfold without_date_anchor
    split_ifs with h1 h2
    · exact check_valid_replaceHour_start (now + 86400)
    · exact check_valid_replaceHour_start now
    · unfold check_valid_date_and_hour_range
      rw [if_neg h2, if_neg (by omega)]
  · rcases hq : list_available_events_run fetch (without_date_anchor now)
        (some (without_date_anchor now + 7 * 86400)) with ⟨r, tr⟩
    have htr : tr = [(without_date_anchor now,
        dateOf (check_valid_date_and_hour_range (without_date_anchor now + 7 * 86400)) *
          86400 + 86400)] := by
      have h2 := list_run_trace fetch (without_date_anchor now)
        (some (without_date_anchor now + 7 * 86400))
      rw [hq] at h2
      simp only [Option.getD_some, check_valid_anchor] at h2
      exact h2
    subst htr
    simp only [find_available_without_date_run, hq]
    rcases r with e | slots
    · rfl
    · dsimp only
      split
      · rfl
      · rcases list_available_events_run fetch (without_date_anchor now)
            (some (without_date_anchor now + 14 * 86400)) with ⟨r2, tr2⟩
        rcases r2 with e2 | slots2
        · rfl
        · dsimp only
          split <;> rfl
  · intro s1 tr1 h1 hne
    simp only [find_available_without_date_run, h1]
    rw [if_pos (by simpa using List.length_pos.mpr hne)]
  · intro tr1 s2 tr2 h1 h2 hne
    simp only [find_available_without_date_run, h1, h2, List.length_nil, gt_iff_lt,
      lt_self_iff_false, if_false]
    rw [if_pos (by simpa using List.length_pos.mpr hne)]
  · intro tr1 tr2 h1 h2
    simp only [find_available_without_date_run, h1, h2, List.length_nil, gt_iff_lt,
      lt_self_iff_false, if_false]

/-- Claim C9, witness: the amended behavior evaluated at Friday 19:00 with
an empty calendar: the anchor is Saturday 09:00 and the 7-day query
returns the five weekday business windows, which the operation reports. -/
theorem C9_amended_no_date_lookahead_witness :
    without_date_anchor 414000 = replaceHour (414000 + 86400) start_hour ∧
    (find_available_without_date_run fetchEmpty 414000).2.head? =
      some (without_date_anchor 414000,
        dateOf (check_valid_date_and_hour_range (without_date_anchor 414000 + 7 * 86400)) *
          86400 + 86400) ∧
    (find_available_without_date_run fetchEmpty 414000).1 =
      .inl [⟨637200, 669600⟩, ⟨723600, 756000⟩, ⟨810000, 842400⟩,
            ⟨896400, 928800⟩, ⟨982800, 1015200⟩] := by
  obtain ⟨hif, hhead, h7, _, _⟩ := C9_amended_no_date_lookahead fetchEmpty 414000
  refine ⟨?_, hhead, ?_⟩
  · rw [if_pos (by decide)] at hif
    exact hif
  · exact h7 [⟨637200, 669600⟩, ⟨723600, 756000⟩, ⟨810000, 842400⟩,
      ⟨896400, 928800⟩, ⟨982800, 1015200⟩]
      [(464400, 1123200)] (by decide) (by decide)

end CalendarManager
